import Mathlib

/-!
Verification development for the neuropythy geometry core
(neuropythy/geometry/mesh.py): tesselation indices, spatial queries,
barycentric addressing, interpolation scaling, and the smoothing objective.

Numbers are modelled as exact rationals; floating-point NaN is modelled by
the type FQ := Option Rat with none standing for NaN, and arithmetic on FQ
propagating none the way IEEE arithmetic propagates NaN.  Python exceptions
are modelled by the Except monad over the PyErr type below.
-/

/-- PyErr enumerates the Python exception kinds that the embedded code can
raise: AttributeError (access to a nonexistent attribute), NameError
(reference to an unbound name), TypeError (len() of an unsized object),
IndexError (out-of-range indexing), RuntimeError (raised by a dict
mutated during iteration, and raised explicitly by the source) and
ValueError (raised explicitly by the source). -/
inductive PyErr where
  | attributeError : PyErr
  | nameError : PyErr
  | typeError : PyErr
  | indexError : PyErr
  | runtimeError : PyErr
  | valueError : PyErr
deriving DecidableEq, Repr

/-! ## Smoothing objective (Mesh.smooth, mesh.py lines 1360-1479)

The minimization inside Mesh.smooth is, from the source:

  (ks, ke) = (smoothness, 1.0 - smoothness)
  def _f(x):
      rs = np.dot(weights_tth, (x0[mask_tethered] - x[mask_tethered])**2)
      re = np.sum((x[us] - x[vs])**2)
      return ks*rs + ke*re

so rs is the tether (original-value) term, re is the edge (smoothness)
term, and the returned objective is smoothness*rs + (1-smoothness)*re.
We embed the two sum terms and the objective exactly. -/

/-- edgeTerm el x is the sum over the edge list el of (x u - x v)^2; this is
the term called re in Mesh.smooth. -/
def edgeTerm (el : List (Nat × Nat)) (x : Nat → ℚ) : ℚ :=
  (el.map (fun e => (x e.1 - x e.2) ^ 2)).sum

/-- tetherTerm teth w x0 x is the weighted sum over the tethered vertices of
(x0 v - x v)^2; this is the term called rs in Mesh.smooth. -/
def tetherTerm (teth : List Nat) (w x0 x : Nat → ℚ) : ℚ :=
  (teth.map (fun v => w v * (x0 v - x v) ^ 2)).sum

/-- smoothObjective is the function _f minimized by Mesh.smooth as written
in the source: with (ks, ke) = (smoothness, 1 - smoothness), it returns
ks * rs + ke * re, i.e. the tether term is weighted by smoothness and the
edge term by 1 - smoothness. -/
def smoothObjective (smoothness : ℚ) (el : List (Nat × Nat)) (teth : List Nat)
    (w x0 x : Nat → ℚ) : ℚ :=
  smoothness * tetherTerm teth w x0 x + (1 - smoothness) * edgeTerm el x

/-- smoothObjectiveSpec is the objective stated by the specification
(section 4.6): smoothness weights the edge term and 1 - smoothness weights
the tether term.  It is kept separate from smoothObjective so the two can
be compared. -/
def smoothObjectiveSpec (smoothness : ℚ) (el : List (Nat × Nat)) (teth : List Nat)
    (w x0 x : Nat → ℚ) : ℚ :=
  smoothness * edgeTerm el x + (1 - smoothness) * tetherTerm teth w x0 x

/-- triEdges is the edge list of a mesh consisting of the single triangle
on vertices 0, 1, 2 (edges (0,1), (1,2), (2,0)); used as a concrete
smoothing instance. -/
def triEdges : List (Nat × Nat) := [(0, 1), (1, 2), (2, 0)]

/-- triTethered is the tethered vertex list 0, 1, 2 of the one-triangle
smoothing instance (no outliers, no mask). -/
def triTethered : List Nat := [0, 1, 2]

/-- triProp is the input property vector (0, 1, 2) on the one-triangle
smoothing instance. -/
def triProp : Nat → ℚ := fun v => (v : ℚ)

/-! ## Containing-triangle search (Mesh.is_point_in_face, lines 892-906,
Mesh._find_triangle_search, lines 908-918, and the scalar path of
Mesh.container, lines 1018-1023)

The scalar path of Mesh.container runs

    (d, near) = self.face_hash.query(pt, k=k)
    tri_no = next((kk for kk in near if self.is_point_in_face(kk, pt)), None)
    return (tri_no if tri_no is not None
            else self._find_triangle_search(pt, k=(2*k), searched=set(near)))

Two statements in this chain raise on the scalar path:
  - is_point_in_face begins with tri_no = np.asarray(tri_no) followed by
    "if len(tri_no) == 0:"; for a scalar candidate index the asarray is a
    0-dimensional array and len() of it raises TypeError, so the first
    candidate test of every nonempty candidate list raises.
  - _find_triangle_search is, for k below its cap,

        if k >= 288: return None
        (d,near) = self.facee_hash.query(x, k=k)
        ...

    and Mesh objects have an attribute face_hash (lines 816-822) but no
    attribute facee_hash, so the attribute access raises AttributeError
    before any k-d tree query; only the k >= 288 base case returns None.
    The recursive doubling below the base case is unreachable.

Both are embedded faithfully below; the documented double-k-then-None
behavior occurs on no input. -/

/-- meshAttributes lists the spatial-index attributes that a Mesh object
actually has (mesh.py defines face_hash and vertex_hash). -/
def meshAttributes : List String := ["face_hash", "vertex_hash"]

/-- getAttr models Python attribute lookup on a Mesh for the spatial-index
attributes: it raises AttributeError when the requested name is not an
attribute of the object. -/
def getAttr (name : String) : Except PyErr Unit :=
  if name ∈ meshAttributes then Except.ok () else Except.error PyErr.attributeError

/-- find_triangle_search embeds Mesh._find_triangle_search: if k >= 288 it
returns None (no container); otherwise the body evaluates
self.facee_hash, and facee_hash is not an attribute of Mesh (the spatial
hash is named face_hash), so the lookup raises AttributeError. -/
def find_triangle_search (k : Nat) : Except PyErr (Option Nat) :=
  if 288 ≤ k then Except.ok none
  else
    match getAttr "facee_hash" with
    | Except.error e => Except.error e
    | Except.ok _ => Except.ok none

/-- is_point_in_face embeds Mesh.is_point_in_face applied to a single
scalar candidate face index, as the scalar container path calls it:
tri_no = np.asarray(tri_no) is 0-dimensional and the next statement
evaluates len(tri_no), which raises TypeError on an unsized object
(lines 900-902); the containment test below it is unreachable on this
path. -/
def is_point_in_face (tri_no : Nat) : Except PyErr Bool :=
  Except.error PyErr.typeError

/-- firstContaining embeds the generator expression
next((kk for kk in near if test(kk)), None): candidates are tested in
order until one passes, an exception from the test propagates, and an
exhausted candidate list yields None. -/
def firstContaining (test : Nat → Except PyErr Bool) :
    List Nat → Except PyErr (Option Nat)
  | [] => Except.ok none
  | kk :: rest =>
    match test kk with
    | Except.error e => Except.error e
    | Except.ok true => Except.ok (some kk)
    | Except.ok false => firstContaining test rest

/-- container_scalar_code embeds the scalar path of Mesh.container (lines
1018-1023): the candidate list near is the result of the external k-d
tree query with the given k; the first candidate containing the point is
returned, and otherwise _find_triangle_search is called with 2*k. -/
def container_scalar_code (near : List Nat) (k : Nat) :
    Except PyErr (Option Nat) :=
  match firstContaining is_point_in_face near with
  | Except.error e => Except.error e
  | Except.ok (some t) => Except.ok (some t)
  | Except.ok none => find_triangle_search (2 * k)

/-- container_typeError: with any candidate at all, the scalar container
raises TypeError at the first is_point_in_face test. -/
theorem container_typeError (near : List Nat) (k : Nat) (hne : near ≠ []) :
    container_scalar_code near k = Except.error PyErr.typeError := by
  rcases near with _ | ⟨kk, rest⟩
  · exact absurd rfl hne
  · rfl

/-- container_attributeError: with no candidates, the scalar container
falls back to _find_triangle_search, which raises AttributeError for
every doubled k below the 288 cap (it reads self.facee_hash). -/
theorem container_attributeError (k : Nat) (hk : 2 * k < 288) :
    container_scalar_code [] k = Except.error PyErr.attributeError := by
  show find_triangle_search (2 * k) = _
  unfold find_triangle_search
  rw [if_neg (by omega)]
  rfl

/-! ## NaN-propagating rational arithmetic

FQ models a floating-point value as either a finite rational (some q) or
NaN (none); fadd, fsub, fmul and fdiv propagate NaN the way IEEE
arithmetic does for the operations that occur in the embedded code. -/

/-- FQ is the type of modelled floating-point values: some q is the finite
value q, none is NaN. -/
abbrev FQ := Option ℚ

/-- fadd adds two modelled floats, propagating NaN. -/
def fadd (a b : FQ) : FQ :=
  match a, b with
  | some x, some y => some (x + y)
  | _, _ => none

/-- fsub subtracts two modelled floats, propagating NaN. -/
def fsub (a b : FQ) : FQ :=
  match a, b with
  | some x, some y => some (x - y)
  | _, _ => none

/-- fmul multiplies two modelled floats, propagating NaN. -/
def fmul (a b : FQ) : FQ :=
  match a, b with
  | some x, some y => some (x * y)
  | _, _ => none

/-- fdiv divides two modelled floats, propagating NaN; division by zero is
also mapped to NaN (the embedded code never divides a nonzero finite
value by zero, so conflating inf with NaN is harmless here). -/
def fdiv (a b : FQ) : FQ :=
  match a, b with
  | some x, some y => if y = 0 then none else some (x / y)
  | _, _ => none

/-- fsum sums a list of modelled floats, propagating NaN (numpy sum over an
array containing NaN yields NaN). -/
def fsum (l : List FQ) : FQ :=
  l.foldr fadd (some 0)

/-! ## Interpolation-matrix rescaling (Mesh.scale_interpolation, lines
1063-1130, restricted to the mask=None, weights=None path)

With mask=None and weights=None the function computes, per row r of the
m x n matrix interp, ss = r.data.sum() and

  (closest, rowdivs) = transpose(
    [(r.indices[argsort(r.data)[-1]], 1/ss) if isfinite(ss) and ss > 0
     else (n, 0) for r in interp for ss in [r.data.sum()]])
  rescale_mtx = lil_matrix((n,n)); rescale_mtx.setdiag(rowdivs)
  interp = interp.dot(rescale_mtx.tocsc())
  bad_pts = ~mask[closest]
  if bad_pts.sum() > 0: interp[bad_pts, 0] = nan

Note the shape of rescale_mtx: it is n x n (n = vertex count) and it is
applied on the right, so entry (i,j) of interp is multiplied by the
reciprocal of the sum of row j (not of row i).  The matrix is embedded
densely as a list of rows over FQ; stored entries of the csr matrix are
the entries different from some 0. -/

/-- storedEntriesFrom row j lists the (column, value) pairs of the nonzero
entries of row, columns counted from j upward; NaN entries are kept. -/
def storedEntriesFrom : List FQ → Nat → List (Nat × FQ)
  | [], _ => []
  | some q :: rest, j =>
      if q = 0 then storedEntriesFrom rest (j+1)
      else (j, some q) :: storedEntriesFrom rest (j+1)
  | none :: rest, j => (j, none) :: storedEntriesFrom rest (j+1)

/-- storedEntries row is the list of (column, value) pairs the csr matrix
stores for a dense row: the entries that are not exactly zero
(eliminate_zeros has run; NaN entries are stored). -/
def storedEntries (row : List FQ) : List (Nat × FQ) :=
  storedEntriesFrom row 0

/-- fqLt orders modelled floats the way numpy argsort orders data that may
contain NaN: finite values by magnitude, NaN after every finite value. -/
def fqLt (a b : FQ) : Bool :=
  match a, b with
  | some x, some y => decide (x < y)
  | some _, none => true
  | none, _ => false

/-- argmaxStored row is the column index of the stored entry of the row that
argsort places last (a maximal stored value, NaN counting as largest);
it models r.indices[argsort(r.data)[-1]].  For an empty stored list it
returns 0, but the embedded caller never evaluates it in that case. -/
def argmaxStored (row : List FQ) : Nat :=
  match storedEntries row with
  | [] => 0
  | e :: es => (es.foldl (fun best c => if fqLt best.2 c.2 then c else best) e).1

/-- rowClosestDiv row n is the pair (closest, rowdiv) computed for one row
of the interpolation matrix: if the row sum ss is finite and positive,
closest is the column of the maximal stored entry and rowdiv is 1/ss;
otherwise the pair is (n, 0). -/
def rowClosestDiv (row : List FQ) (n : Nat) : Nat × ℚ :=
  match fsum row with
  | some ss => if 0 < ss then (argmaxStored row, 1 / ss) else (n, 0)
  | none => (n, 0)

/-- setDiagTrunc vals n is the length-n diagonal produced by
lil_matrix((n,n)).setdiag(vals): entry j is vals[j] for j < len(vals)
and 0 beyond (scipy truncates a too-long vals to the diagonal length). -/
def setDiagTrunc (vals : List ℚ) (n : Nat) : Nat → ℚ :=
  fun j => if j < n then vals.getD j 0 else 0

/-- scaleRowFrom diag row j multiplies entry (j+k) of the row by diagonal
entry j+k; this is the effect on one row of right-multiplying the matrix
by the diagonal matrix diag. -/
def scaleRowFrom (diag : Nat → ℚ) : List FQ → Nat → List FQ
  | [], _ => []
  | x :: rest, j => fmul x (some (diag j)) :: scaleRowFrom diag rest (j+1)

/-- scale_interpolation_nomask embeds Mesh.scale_interpolation on the
mask=None, weights=None path for an m x n matrix given densely as a list
of m rows of length n: it computes the per-row (closest, rowdiv) pairs,
right-multiplies by the n x n diagonal of the rowdivs (scaling column j
by rowdiv j), and then overwrites entry 0 of every row whose closest
column is the out-of-mask sentinel n with NaN. -/
def scale_interpolation_nomask (interp : List (List FQ)) (n : Nat) : List (List FQ) :=
  let info := interp.map (fun r => rowClosestDiv r n)
  let diag := setDiagTrunc (info.map Prod.snd) n
  let scaled := interp.map (fun r => scaleRowFrom diag r 0)
  (scaled.zip info).map (fun ri =>
    if ri.2.1 = n then ri.1.set 0 none else ri.1)

/-! ## Topology.interpolate (lines 1594-1633)

The body of Topology.interpolate begins with

    reg_names = [k for k in topo.registrations.iterkeys()
                 if k in self.registrations]

but the method's parameter list is (self, x, data, mask, weights, method,
n_jobs): no name topo is bound in the method, in the module, or in the
builtins, so evaluating the comprehension raises NameError on every call,
before the RuntimeError/ValueError logic below it can run.  The rest of
the body raises RuntimeError when reg_names is empty, otherwise tries each
shared registration in order, swallowing exceptions, and raises ValueError
when every attempt failed. -/

/-- interpolateScopeNames lists the names bound in the scope of
Topology.interpolate: its parameters and the module-level imports and
class names of mesh.py.  The name topo used by the body is not among
them. -/
def interpolateScopeNames : List String :=
  ["self", "x", "data", "mask", "weights", "method", "n_jobs",
   "np", "npml", "sp", "space", "sps", "spopt", "pyr", "sys", "six", "pimms",
   "colls", "reduce", "triangle_area", "triangle_address", "alignment_matrix_3D",
   "cartesian_to_barycentric_3D", "cartesian_to_barycentric_2D",
   "barycentric_to_cartesian", "point_in_triangle",
   "VertexSet", "TesselationIndex", "Tesselation", "Mesh", "Topology"]

/-- topology_interpolate embeds Topology.interpolate: the attempt function
models self.registrations[r].interpolate(topo.registrations[r], data, ...)
inside the try/except (none meaning the attempt raised).  The body first
evaluates the name topo; since topo is not in scope the call raises
NameError, and the shared-registration logic after it is dead code. -/
def topology_interpolate (otherRegs selfRegs : List String)
    (attempt : String → Option ℚ) : Except PyErr ℚ :=
  if "topo" ∈ interpolateScopeNames then
    let reg_names := otherRegs.filter (fun k => selfRegs.contains k)
    if reg_names.isEmpty then Except.error PyErr.runtimeError
    else
      match reg_names.findSome? attempt with
      | some v => Except.ok v
      | none => Except.error PyErr.valueError
  else Except.error PyErr.nameError

/-- topology_interpolate_intended models the same method with the one slip
removed: the body's name topo read as the parameter x (the docstring
calls the argument topo), so the shared-registration logic is reachable.
It is the comparison point for the error-handling claim about this
method. -/
def topology_interpolate_intended (otherRegs selfRegs : List String)
    (attempt : String → Option ℚ) : Except PyErr ℚ :=
  let reg_names := otherRegs.filter (fun k => selfRegs.contains k)
  if reg_names.isEmpty then Except.error PyErr.runtimeError
  else
    match reg_names.findSome? attempt with
    | some v => Except.ok v
    | none => Except.error PyErr.valueError

/-! ## Theorems: smoothing, container search, interpolation scaling,
topology interpolation errors -/

/-- C1: Mesh.smooth with smoothness=0 does not tether the solution to the
input values.  In the source the objective is
smoothness*tether + (1-smoothness)*edge, so at smoothness=0 it is the
pure edge term: on the one-triangle mesh with input property (0,1,2) and
unit weights, the constant vector 1 has a strictly smaller objective
than the input vector itself, so the minimizer cannot return the input
at the tethered vertices.  By contrast, under the objective stated by
the specification (smoothness weighting the edge term), smoothness=0
makes the input a global minimizer.  This contradicts the method's own
docstring, which says a smoothness of 0 performs no smoothing. -/
theorem smooth_smoothness_zero_bug :
    smoothObjective 0 triEdges triTethered (fun _ => 1) triProp (fun _ => 1)
      < smoothObjective 0 triEdges triTethered (fun _ => 1) triProp triProp ∧
    (∀ x : Nat → ℚ,
      smoothObjectiveSpec 0 triEdges triTethered (fun _ => 1) triProp triProp
        ≤ smoothObjectiveSpec 0 triEdges triTethered (fun _ => 1) triProp x) := by
  constructor
  · norm_num [smoothObjective, edgeTerm, tetherTerm, triEdges, triTethered, triProp]
  · intro x
    simp only [smoothObjectiveSpec, tetherTerm, edgeTerm, triTethered, triProp, triEdges,
      List.map_cons, List.map_nil, List.sum_cons, List.sum_nil]
    norm_num
    positivity

/-- C3: the scalar path of Mesh.container never performs the documented
double-k-until-cap-then-None search: with any candidate face at all, the
first containment test raises TypeError inside is_point_in_face (len()
of the 0-dimensional tri_no array), and with an empty candidate list the
fallback _find_triangle_search raises AttributeError (it reads the
nonexistent attribute facee_hash; the spatial hash is face_hash) for
every doubled k below the 288 cap.  In no case is the None sentinel of
the claim reached by the search. -/
theorem container_scalar_raises :
    (∀ (near : List Nat) (k : Nat), near ≠ [] →
      container_scalar_code near k = Except.error PyErr.typeError) ∧
    (∀ k : Nat, 2 * k < 288 →
      container_scalar_code [] k = Except.error PyErr.attributeError) :=
  ⟨container_typeError, container_attributeError⟩

/-- Witness for container_scalar_raises at the default call (k=2): a
two-candidate list raises TypeError, the empty list raises
AttributeError. -/
theorem container_scalar_raises_witness :
    container_scalar_code [5, 9] 2 = Except.error PyErr.typeError ∧
    container_scalar_code [] 2 = Except.error PyErr.attributeError :=
  ⟨container_scalar_raises.1 [5, 9] 2 (by decide),
   container_scalar_raises.2 2 (by decide)⟩

/-- C4: scale_interpolation with mask=None and weights=None does not make
every row sum to 1 or contain NaN.  On the 2x2 matrix [[1,2],[0,1]] the
row sums are 3 and 1, but the rescaling diagonal is applied on the right
(scaling columns, not rows), so the first row of the result is [1/3, 2]:
its sum is 7/3, not 1, and it contains no NaN. -/
theorem scale_interpolation_row_sum_counterexample :
    scale_interpolation_nomask [[some 1, some 2], [some 0, some 1]] 2
        = [[some (1/3 : ℚ), some 2], [some 0, some 1]] ∧
    fsum [some (1/3 : ℚ), some 2] = some (7/3 : ℚ) ∧ (7/3 : ℚ) ≠ 1 := by
  refine ⟨?_, ?_, by norm_num⟩
  · norm_num [scale_interpolation_nomask, rowClosestDiv, argmaxStored, storedEntries,
      storedEntriesFrom, fqLt, setDiagTrunc, scaleRowFrom, fmul, fadd, fsum]
  · norm_num [fsum, fadd]

/-- C5: Topology.interpolate as written raises NameError on every call
(its body reads the unbound name topo; the parameter is x), so it never
reaches its shared-registration error logic; in the intended body (topo
read as the parameter x), zero shared registration names raise
RuntimeError and a nonempty shared list all of whose interpolation
attempts fail raises ValueError. -/
theorem topology_interpolate_error_kinds :
    (∀ (otherRegs selfRegs : List String) (attempt : String → Option ℚ),
        topology_interpolate otherRegs selfRegs attempt
          = Except.error PyErr.nameError) ∧
    (∀ (otherRegs selfRegs : List String) (attempt : String → Option ℚ),
        otherRegs.filter (fun k => selfRegs.contains k) = [] →
        topology_interpolate_intended otherRegs selfRegs attempt
          = Except.error PyErr.runtimeError) ∧
    (∀ (otherRegs selfRegs : List String) (attempt : String → Option ℚ),
        otherRegs.filter (fun k => selfRegs.contains k) ≠ [] →
        (∀ r ∈ otherRegs.filter (fun k => selfRegs.contains k), attempt r = none) →
        topology_interpolate_intended otherRegs selfRegs attempt
          = Except.error PyErr.valueError) := by
  refine ⟨?_, ?_, ?_⟩
  · intro otherRegs selfRegs attempt
    unfold topology_interpolate
    rw [if_neg (by decide)]
  · intro otherRegs selfRegs attempt hempty
    unfold topology_interpolate_intended
    rw [hempty]
    rfl
  · intro otherRegs selfRegs attempt hne hall
    unfold topology_interpolate_intended
    rw [if_neg (by simpa [List.isEmpty_iff] using hne)]
    rw [List.findSome?_eq_none_iff.mpr hall]

/-- Witness for topology_interpolate_error_kinds: concrete registration
name lists exercising all three error outcomes. -/
theorem topology_interpolate_error_kinds_witness :
    topology_interpolate ["sphere"] ["sphere"] (fun _ => some 1)
        = Except.error PyErr.nameError ∧
    topology_interpolate_intended ["sphere"] ["inflated"] (fun _ => some 1)
        = Except.error PyErr.runtimeError ∧
    topology_interpolate_intended ["sphere"] ["sphere"] (fun _ => none)
        = Except.error PyErr.valueError :=
  ⟨topology_interpolate_error_kinds.1 ["sphere"] ["sphere"] (fun _ => some 1),
   topology_interpolate_error_kinds.2.1 ["sphere"] ["inflated"] (fun _ => some 1) (by decide),
   topology_interpolate_error_kinds.2.2 ["sphere"] ["sphere"] (fun _ => none)
     (by decide) (fun r _ => rfl)⟩

/-! ## Tesselation: labels and subtess (mesh.py lines 365-657)

A Tesselation is built from a 3 x m matrix of vertex-label triples; its
labels are np.unique(faces), the sorted deduplicated corner labels
(line 401).  subtess (lines 620-649) takes a boolean vertex mask (indexed
by vertex index), counts the selected vertices, returns self when all are
selected, and otherwise keeps exactly the faces whose three corners are
all selected (fsum == 3); the retained faces keep their original label
values.  Properties and meta-data are not involved in the claims and are
omitted from the embedding. -/

/-- Face is a triple of vertex labels: one column of tess.faces. -/
abbrev Face := Nat × Nat × Nat

/-- faceCorners lists the three corner labels of a face. -/
def faceCorners (f : Face) : List Nat := [f.1, f.2.1, f.2.2]

/-- tessLabels faces is tess.labels: np.unique of the face matrix, the
sorted deduplicated list of all corner labels. -/
def tessLabels (faces : List Face) : List Nat :=
  ((faces.map faceCorners).flatten.dedup).insertionSort (fun a b => a ≤ b)

/-- Tess is the combinatorial part of a Tesselation object: its faces. -/
structure Tess where
  faces : List Face
deriving DecidableEq, Repr

/-- Tess.labels is the labels value of the tesselation. -/
def Tess.labels (t : Tess) : List Nat := tessLabels t.faces

/-- Tess.vertex_count is the number of vertices (labels) of the
tesselation. -/
def Tess.vertex_count (t : Tess) : Nat := t.labels.length

/-- Tess.vertexIndex u is the vertex index of the label u (its position in
the sorted label list). -/
def Tess.vertexIndex (t : Tess) (u : Nat) : Nat := t.labels.indexOf u

/-- maskSel t mask u reads the boolean mask entry of the vertex labelled u
(the mask is indexed by vertex index, as in vertices[f] for f in
tess.indexed_faces). -/
def maskSel (t : Tess) (mask : List Bool) (u : Nat) : Bool :=
  mask.getD (t.vertexIndex u) false

/-- faceKept t mask f holds when all 3 corners of f are selected by the
mask; this is the fsum == 3 test of subtess. -/
def faceKept (t : Tess) (mask : List Bool) (f : Face) : Bool :=
  maskSel t mask f.1 && maskSel t mask f.2.1 && maskSel t mask f.2.2

/-- Tess.subtess embeds the boolean-mask branch of Tesselation.subtess
(the branch taken when the argument is a boolean vector of length
vertex_count): when the mask selects every vertex the original
tesselation is returned unchanged; otherwise the faces with all three
corners selected are kept, with their original labels.  The label-list
branch of subtess (lines 630-636) behaves differently and is embedded
separately as Tess.subtess_labels. -/
def Tess.subtess (t : Tess) (mask : List Bool) : Tess :=
  if mask.count true = t.vertex_count then t
  else { faces := t.faces.filter (fun f => faceKept t mask f) }

/-- mem_tessLabels characterizes membership in tess.labels: a label occurs
iff it is a corner of some face. -/
theorem mem_tessLabels {faces : List Face} {u : Nat} :
    u ∈ tessLabels faces ↔ ∃ f ∈ faces, u ∈ faceCorners f := by
  unfold tessLabels
  rw [List.mem_insertionSort, List.mem_dedup, List.mem_flatten]
  constructor
  · rintro ⟨l, hl, hu⟩
    rcases List.mem_map.mp hl with ⟨f, hf, rfl⟩
    exact ⟨f, hf, hu⟩
  · rintro ⟨f, hf, hu⟩
    exact ⟨faceCorners f, List.mem_map_of_mem _ hf, hu⟩

/-- maskSel_of_count_full: when the mask selects as many vertices as the
tesselation has, every label is selected. -/
theorem maskSel_of_count_full {t : Tess} {mask : List Bool}
    (hlen : mask.length = t.labels.length)
    (hcount : mask.count true = t.vertex_count) {u : Nat} (hu : u ∈ t.labels) :
    maskSel t mask u = true := by
  have hfull : mask.count true = mask.length := by
    rw [hcount, Tess.vertex_count, hlen]
  have hall : ∀ b ∈ mask, b = true := fun b hb =>
    (List.count_eq_length.mp hfull b hb).symm
  have hidx : t.vertexIndex u < mask.length := by
    rw [hlen]
    exact List.indexOf_lt_length.mpr hu
  unfold maskSel
  rw [List.getD_eq_getElem _ _ hidx]
  exact hall _ (List.getElem_mem hidx)

/-- subtess_spec: on the boolean-mask branch, subtess keeps a face iff all
three of its corners are selected, every label of the sub-tesselation is
an original label (labels are preserved, not renumbered), and a mask
selecting every vertex returns the original tesselation itself.  (The
label-list branch diverges from this; see subtess_label_branch_bug.) -/
theorem subtess_spec (t : Tess) (mask : List Bool)
    (hlen : mask.length = t.labels.length) :
    (∀ f, f ∈ (t.subtess mask).faces ↔ f ∈ t.faces ∧ faceKept t mask f = true) ∧
    (∀ u, u ∈ (t.subtess mask).labels → u ∈ t.labels) ∧
    ((∀ b ∈ mask, b = true) → t.subtess mask = t) := by
  by_cases hfull : mask.count true = t.vertex_count
  · refine ⟨?_, ?_, ?_⟩
    · intro f
      rw [Tess.subtess, if_pos hfull]
      constructor
      · intro hf
        refine ⟨hf, ?_⟩
        have h1 : maskSel t mask f.1 = true := maskSel_of_count_full hlen hfull
          (mem_tessLabels.mpr ⟨f, hf, by simp [faceCorners]⟩)
        have h2 : maskSel t mask f.2.1 = true := maskSel_of_count_full hlen hfull
          (mem_tessLabels.mpr ⟨f, hf, by simp [faceCorners]⟩)
        have h3 : maskSel t mask f.2.2 = true := maskSel_of_count_full hlen hfull
          (mem_tessLabels.mpr ⟨f, hf, by simp [faceCorners]⟩)
        unfold faceKept
        rw [h1, h2, h3]
        rfl
      · exact fun h => h.1
    · intro u
      rw [Tess.subtess, if_pos hfull]
      exact fun h => h
    · intro _
      rw [Tess.subtess, if_pos hfull]
  · refine ⟨?_, ?_, ?_⟩
    · intro f
      rw [Tess.subtess, if_neg hfull]
      exact List.mem_filter
    · intro u hu
      have : u ∈ tessLabels (t.faces.filter (fun f => faceKept t mask f)) := by
        rw [Tess.subtess, if_neg hfull] at hu
        exact hu
      rcases mem_tessLabels.mp this with ⟨f, hf, hc⟩
      exact mem_tessLabels.mpr ⟨f, (List.mem_filter.mp hf).1, hc⟩
    · intro hall
      exact absurd (by
        rw [List.count_eq_length.mpr (fun b hb => (hall b hb).symm), hlen]
        rfl) hfull

/-- pinwheelTess is the 4-vertex, 3-face pinwheel tesselation of the test
fixture (faces (0,1,2), (0,2,3), (0,3,1)). -/
def pinwheelTess : Tess := { faces := [(0, 1, 2), (0, 2, 3), (0, 3, 1)] }

/-- Witness for subtess_spec: on the pinwheel tesselation with the all-true
mask, subtess returns the tesselation itself. -/
theorem subtess_spec_witness :
    ([true, true, true, true] : List Bool).length = pinwheelTess.labels.length ∧
    pinwheelTess.subtess [true, true, true, true] = pinwheelTess :=
  ⟨by decide,
   (subtess_spec pinwheelTess [true, true, true, true] (by decide)).2.2 (by decide)⟩

/-- Tess.subtess_labels embeds the label-list branch of subtess (lines
630-637): tmp = self.index(vertices) collects the vertex indices of the
given labels, vertices = np.zeros(vertex_count) builds a float vector
(the default dtype) with 1.0 at those indices, and
vidcs = self.indices[vertices] then fancy-indexes the index array with a
float 0/1 vector.  Under the numpy behavior contemporary with this code
the float indices are truncated to integers, so vidcs is indices[0] or
indices[1] per entry — a length-vertex_count vector of 0/1 values, not
the selected indices — and the test len(vidcs) == self.vertex_count
succeeds for every selection, returning self untrimmed.  (Numpy 1.12 and
later raises IndexError on float indices instead; on no version does the
branch trim faces.) -/
def Tess.subtess_labels (t : Tess) (sel : List Nat) : Tess :=
  let tmp := sel.map (fun u => t.vertexIndex u)
  let vertices := (List.range t.vertex_count).map
    (fun i => if i ∈ tmp then (1 : Nat) else 0)
  let vidcs := vertices.map (fun v => (List.range t.vertex_count).getD v 0)
  if vidcs.length = t.vertex_count then t
  else { faces := t.faces.filter (fun f => faceKept t (vertices.map (fun v => v == 1)) f) }

/-- C6: the label-list form of subtess does not trim faces: selecting the
labels 0, 1, 2 of the pinwheel tesselation returns the tesselation
itself, so the face (0,2,3) — whose corner 3 is not in the subset —
remains, contradicting the claim that a face is retained only when all
3 corners survive.  (The boolean-mask branch does behave as claimed;
see subtess_spec.) -/
theorem subtess_label_branch_bug :
    Tess.subtess_labels pinwheelTess [0, 1, 2] = pinwheelTess ∧
    (0, 2, 3) ∈ (Tess.subtess_labels pinwheelTess [0, 1, 2]).faces ∧
    (3 : Nat) ∉ ([0, 1, 2] : List Nat) := by
  refine ⟨?_, ?_, by decide⟩
  · decide
  · decide

/-! ## Edge data of a Tesselation (Tesselation.edge_data, lines 422-451,
and edge_faces, lines 480-487)

The edge_data loop iterates the directed edges of all faces — all
(f0,f1) pairs first, then all (f1,f2), then all (f2,f0), each paired with
its face index — sorts each pair, and builds the edge2face dictionary:
a new sorted pair is bound to the one-element list of its face index, and
a pair already present gets the face index appended.  At the end the
code runs

    for ((a,b),v) in six.iteritems(edge2face):
        edge2face[(b,a)] = v

intending to bind each reversed key to the same tuple.  Every key built
by the loop is a sorted pair, so for any key (a,b) with a < b the
assignment inserts a new key into the dictionary being iterated, and the
iterator's next step raises RuntimeError (dictionary changed size during
iteration).  edge_data therefore raises for every tesselation with a
non-degenerate edge, and edge_face_index is never constructed; this is
embedded as edge_data_code.  The accumulator itself (edgeFaceMap) and
the lookup of a sorted pair in it (edge_face_index) embed the intended
construction — the main loop's result, with the reversed-key pass read
as iterating a snapshot, under which looking an edge up in either order
is looking up its sorted pair. -/

/-- sortPair e is tuple(sorted(e)) for a vertex pair. -/
def sortPair (e : Nat × Nat) : Nat × Nat :=
  if e.1 ≤ e.2 then e else (e.2, e.1)

/-- enumFrom i l pairs each element of l with its position, counted from
i. -/
def enumFrom : Nat → List Face → List (Nat × Face)
  | _, [] => []
  | i, f :: rest => (i, f) :: enumFrom (i+1) rest

/-- edgeStream faces is the sequence of (directed edge, face index) pairs
iterated by the edge_data loop: the concatenation of the three rows of
directed edges, each zipped with the face index range. -/
def edgeStream (faces : List Face) : List ((Nat × Nat) × Nat) :=
  (enumFrom 0 faces).map (fun p => ((p.2.1, p.2.2.1), p.1))
    ++ (enumFrom 0 faces).map (fun p => ((p.2.2.1, p.2.2.2), p.1))
    ++ (enumFrom 0 faces).map (fun p => ((p.2.2.2, p.2.1), p.1))

/-- E2F is the edge2face accumulator of the edge_data loop: an association
list from sorted edges to lists of face indices. -/
abbrev E2F := List ((Nat × Nat) × List Nat)

/-- e2fLookup m k is dictionary lookup in the accumulator. -/
def e2fLookup (m : E2F) (k : Nat × Nat) : Option (List Nat) :=
  (m.find? (fun kv => kv.1 = k)).map (fun kv => kv.2)

/-- e2fStep m ei performs one iteration of the edge_data loop: with the
sorted key of the directed edge, either append the face index to the
existing entry or bind the key to the new one-element list. -/
def e2fStep (m : E2F) (ei : (Nat × Nat) × Nat) : E2F :=
  if m.any (fun kv => kv.1 = sortPair ei.1) then
    m.map (fun kv => if kv.1 = sortPair ei.1 then (kv.1, kv.2 ++ [ei.2]) else kv)
  else m ++ [(sortPair ei.1, [ei.2])]

/-- edgeFaceMap faces is the edge2face accumulator after the main
edge_data loop (before the reversed-key pass, whose as-written failure
is embedded as edge_data_code). -/
def edgeFaceMap (faces : List Face) : E2F :=
  (edgeStream faces).foldl e2fStep []

/-- edge_face_index faces e embeds the intended tess.edge_face_index at
the edge e: with the reversed-key pass read as iterating a snapshot (as
written it raises; see edge_data_code), the final dictionary binds both
orders of each edge to the face-index tuple of its sorted pair, so the
lookup of either order is the lookup of the sorted pair in the
accumulator. -/
def edge_face_index (faces : List Face) (e : Nat × Nat) : Option (List Nat) :=
  e2fLookup (edgeFaceMap faces) (sortPair e)

/-- edge_data_code embeds the outcome of Tesselation.edge_data as written:
the reversed-key pass mutates edge2face while iterating
six.iteritems(edge2face), so as soon as the accumulator holds a key
(a,b) with a different from b — i.e. the tesselation has a
non-degenerate edge — the insertion of (b,a) grows the dictionary and
the iterator raises RuntimeError; only a tesselation all of whose edges
are degenerate loops completes. -/
def edge_data_code (faces : List Face) : Except PyErr Unit :=
  if (edgeFaceMap faces).any (fun kv => kv.1.1 != kv.1.2) then
    Except.error PyErr.runtimeError
  else Except.ok ()

/-- streamMatches s k lists the face indices of the stream entries whose
sorted directed edge is k, in stream order. -/
def streamMatches (s : List ((Nat × Nat) × Nat)) (k : Nat × Nat) : List Nat :=
  s.filterMap (fun ei => if sortPair ei.1 = k then some ei.2 else none)

/-- e2fLookup_map_upd: appending i to the entry of key k0 changes only the
lookup at k0, where it appends i to the result. -/
theorem e2fLookup_map_upd (m : E2F) (k0 k : Nat × Nat) (i : Nat) :
    e2fLookup (m.map (fun kv => if kv.1 = k0 then (kv.1, kv.2 ++ [i]) else kv)) k =
      if k0 = k then (e2fLookup m k).map (fun l => l ++ [i]) else e2fLookup m k := by
  induction m with
  | nil => by_cases hk : k0 = k <;> simp [e2fLookup, hk]
  | cons kv rest ih =>
    rw [List.map_cons]
    by_cases hk0 : kv.1 = k0
    · rw [if_pos hk0]
      by_cases hkv : kv.1 = k
      · have hk : k0 = k := hk0.symm.trans hkv
        rw [if_pos hk]
        unfold e2fLookup
        rw [List.find?_cons_of_pos _ (by simp [hkv]),
          List.find?_cons_of_pos _ (by simp [hkv])]
        simp
      · have hk : k0 ≠ k := fun h => hkv (hk0.trans h)
        rw [if_neg hk]
        unfold e2fLookup
        rw [List.find?_cons_of_neg _ (by simp [hkv]),
          List.find?_cons_of_neg _ (by simp [hkv])]
        have h2 := ih
        rw [if_neg hk] at h2
        exact h2
    · rw [if_neg hk0]
      by_cases hkv : kv.1 = k
      · by_cases hk : k0 = k
        · exact absurd (hkv.trans hk.symm) hk0
        · rw [if_neg hk]
          unfold e2fLookup
          rw [List.find?_cons_of_pos _ (by simp [hkv]),
            List.find?_cons_of_pos _ (by simp [hkv])]
      · unfold e2fLookup at ih ⊢
        rw [List.find?_cons_of_neg _ (by simp [hkv]),
          List.find?_cons_of_neg _ (by simp [hkv])]
        exact ih

/-- e2fLookup_isSome_of_any: a key reported present by any has a bound
value. -/
theorem e2fLookup_isSome_of_any (m : E2F) (k0 : Nat × Nat)
    (h : m.any (fun kv => kv.1 = k0) = true) : ∃ l, e2fLookup m k0 = some l := by
  induction m with
  | nil => simp at h
  | cons kv rest ih =>
    by_cases hkv : kv.1 = k0
    · exact ⟨kv.2, by
        unfold e2fLookup
        rw [List.find?_cons_of_pos _ (by simp [hkv])]
        rfl⟩
    · rcases ih (by simpa [hkv] using h) with ⟨l, hl⟩
      refine ⟨l, ?_⟩
      unfold e2fLookup at hl ⊢
      rw [List.find?_cons_of_neg _ (by simp [hkv])]
      exact hl

/-- e2fLookup_eq_none_of_not_any: a key not reported present by any has no
bound value. -/
theorem e2fLookup_eq_none_of_not_any (m : E2F) (k0 : Nat × Nat)
    (h : m.any (fun kv => kv.1 = k0) = false) : e2fLookup m k0 = none := by
  induction m with
  | nil => rfl
  | cons kv rest ih =>
    simp only [List.any_cons, Bool.or_eq_false_iff] at h
    unfold e2fLookup at ih ⊢
    rw [List.find?_cons_of_neg _ (by simpa using h.1)]
    exact ih h.2

/-- e2fLookup_append_single: appending a fresh binding at the end is only
seen by lookups whose key finds nothing earlier. -/
theorem e2fLookup_append_single (m : E2F) (k0 k : Nat × Nat) (i : Nat) :
    e2fLookup (m ++ [(k0, [i])]) k =
      match e2fLookup m k with
      | some l => some l
      | none => if k0 = k then some [i] else none := by
  induction m with
  | nil =>
    by_cases hk : k0 = k <;> simp [e2fLookup, hk]
  | cons kv rest ih =>
    by_cases hkv : kv.1 = k
    · unfold e2fLookup
      rw [List.cons_append, List.find?_cons_of_pos _ (by simp [hkv]),
        List.find?_cons_of_pos _ (by simp [hkv])]
      rfl
    · unfold e2fLookup at ih ⊢
      rw [List.cons_append, List.find?_cons_of_neg _ (by simp [hkv]),
        List.find?_cons_of_neg _ (by simp [hkv])]
      exact ih

/-- e2fLookup_step: one loop iteration appends the face index at the sorted
key of the processed edge (creating the binding if absent) and leaves
every other key unchanged. -/
theorem e2fLookup_step (m : E2F) (ei : (Nat × Nat) × Nat) (k : Nat × Nat) :
    e2fLookup (e2fStep m ei) k =
      if sortPair ei.1 = k then
        match e2fLookup m k with
        | some l => some (l ++ [ei.2])
        | none => some [ei.2]
      else e2fLookup m k := by
  unfold e2fStep
  by_cases hany : m.any (fun kv => kv.1 = sortPair ei.1) = true
  · rw [if_pos hany, e2fLookup_map_upd]
    by_cases hk : sortPair ei.1 = k
    · rw [if_pos hk, if_pos hk]
      rcases e2fLookup_isSome_of_any m _ hany with ⟨l, hl⟩
      rw [hk] at hl
      rw [hl]
      rfl
    · rw [if_neg hk, if_neg hk]
  · rw [if_neg hany, e2fLookup_append_single]
    by_cases hk : sortPair ei.1 = k
    · rw [if_pos hk]
      have hnone : e2fLookup m k = none := by
        rw [← hk]
        exact e2fLookup_eq_none_of_not_any m _ ((Bool.not_eq_true _).mp hany)
      rw [hnone]
      simp [hk]
    · rw [if_neg hk]
      cases e2fLookup m k <;> simp [hk]

/-- e2fLookup_foldl: after folding a stream of (edge, face-index) pairs
into the accumulator, the lookup of a key is its prior value extended by
the stream entries matching the key, in stream order. -/
theorem e2fLookup_foldl (s : List ((Nat × Nat) × Nat)) (m : E2F) (k : Nat × Nat) :
    e2fLookup (s.foldl e2fStep m) k =
      match e2fLookup m k with
      | some l => some (l ++ streamMatches s k)
      | none =>
        if streamMatches s k = [] then none else some (streamMatches s k) := by
  induction s generalizing m with
  | nil =>
    cases h : e2fLookup m k <;> simp [streamMatches, h]
  | cons ei rest ih =>
    rw [List.foldl_cons, ih, e2fLookup_step]
    unfold streamMatches
    rw [List.filterMap_cons]
    by_cases hk : sortPair ei.1 = k
    · rw [if_pos hk, if_pos hk]
      cases h : e2fLookup m k <;> simp
    · rw [if_neg hk, if_neg hk]

/-- edge_face_index_eq_matches: the edge_face_index lookup of an edge is
exactly the list of stream entries whose sorted edge matches, when that
list is nonempty, and absent otherwise. -/
theorem edge_face_index_eq_matches (faces : List Face) (e : Nat × Nat) :
    edge_face_index faces e =
      if streamMatches (edgeStream faces) (sortPair e) = [] then none
      else some (streamMatches (edgeStream faces) (sortPair e)) := by
  unfold edge_face_index edgeFaceMap
  rw [e2fLookup_foldl]
  rfl

/-- faceEdges f lists the three directed edges the edge_data loop derives
from the face f. -/
def faceEdges (f : Face) : List (Nat × Nat) :=
  [(f.1, f.2.1), (f.2.1, f.2.2), (f.2.2, f.1)]

/-- mem_edgeStream_of_enum: each directed edge of a face appears in the
edge stream paired with that face's index. -/
theorem mem_edgeStream_of_enum {faces : List Face} {i : Nat} {f : Face}
    (h : (i, f) ∈ enumFrom 0 faces) :
    ∀ e ∈ faceEdges f, (e, i) ∈ edgeStream faces := by
  intro e he
  unfold edgeStream
  simp only [faceEdges, List.mem_cons, List.not_mem_nil, or_false] at he
  rcases he with rfl | rfl | rfl
  all_goals simp only [List.mem_append, List.mem_map]
  · exact Or.inl (Or.inl ⟨(i, f), h, rfl⟩)
  · exact Or.inl (Or.inr ⟨(i, f), h, rfl⟩)
  · exact Or.inr ⟨(i, f), h, rfl⟩

/-- edge_face_index_spec: in a tesselation in which no undirected edge
occurs in more than two of the directed face-edge slots, every directed
edge of every face is mapped by the intended edge_face_index to a tuple
that contains that face's index and has exactly 1 or 2 entries. -/
theorem edge_face_index_spec (faces : List Face)
    (hman : ∀ ei ∈ edgeStream faces,
      (streamMatches (edgeStream faces) (sortPair ei.1)).length ≤ 2) :
    ∀ i f, (i, f) ∈ enumFrom 0 faces → ∀ e ∈ faceEdges f,
      i ∈ (edge_face_index faces e).getD [] ∧
      (((edge_face_index faces e).getD []).length = 1 ∨
        ((edge_face_index faces e).getD []).length = 2) := by
  intro i f hf e he
  have hmem : (e, i) ∈ edgeStream faces := mem_edgeStream_of_enum hf e he
  have hmatch : i ∈ streamMatches (edgeStream faces) (sortPair e) :=
    List.mem_filterMap.mpr ⟨(e, i), hmem, by simp⟩
  have hne : streamMatches (edgeStream faces) (sortPair e) ≠ [] :=
    List.ne_nil_of_mem hmatch
  have hidx : edge_face_index faces e
      = some (streamMatches (edgeStream faces) (sortPair e)) := by
    rw [edge_face_index_eq_matches, if_neg hne]
  rw [hidx]
  simp only [Option.getD_some]
  refine ⟨hmatch, ?_⟩
  have hlen2 : (streamMatches (edgeStream faces) (sortPair e)).length ≤ 2 := by
    have := hman (e, i) hmem
    simpa using this
  have hlen1 : 1 ≤ (streamMatches (edgeStream faces) (sortPair e)).length :=
    List.length_pos.mpr hne
  omega

/-- C7 (counterexample): on the single-triangle tesselation (0,1,2) —
which has non-degenerate edges — edge_data raises RuntimeError, so no
edge is mapped to any tuple at all; and even under the intended
completion, the tesselation whose three faces (0,1,2), (0,1,3), (0,1,4)
share the edge (0,1) maps that edge to the 3-entry tuple (0,1,2), not 1
or 2 entries. -/
theorem edge_data_counterexample :
    edge_data_code [(0, 1, 2)] = Except.error PyErr.runtimeError ∧
    edge_face_index [(0, 1, 2), (0, 1, 3), (0, 1, 4)] (0, 1) = some [0, 1, 2] ∧
    ¬(((edge_face_index [(0, 1, 2), (0, 1, 3), (0, 1, 4)] (0, 1)).getD []).length = 1 ∨
      ((edge_face_index [(0, 1, 2), (0, 1, 3), (0, 1, 4)] (0, 1)).getD []).length = 2) := by
  refine ⟨by rfl, by rfl, ?_⟩
  intro h
  rcases h with h | h <;> revert h <;> decide

/-- C7: edge_data as written raises RuntimeError for every tesselation
whose accumulator holds a non-degenerate edge key (the reversed-key pass
mutates the dictionary during iteration), so the edge-to-faces index is
never built; under the intended construction, in a tesselation where no
undirected edge occupies more than two face-edge slots, every directed
edge of every face is mapped to a tuple containing that face's index
with exactly 1 or 2 entries. -/
theorem edge_data_settled :
    (∀ faces : List Face,
      (edgeFaceMap faces).any (fun kv => kv.1.1 != kv.1.2) = true →
      edge_data_code faces = Except.error PyErr.runtimeError) ∧
    (∀ faces : List Face,
      (∀ ei ∈ edgeStream faces,
        (streamMatches (edgeStream faces) (sortPair ei.1)).length ≤ 2) →
      ∀ i f, (i, f) ∈ enumFrom 0 faces → ∀ e ∈ faceEdges f,
        i ∈ (edge_face_index faces e).getD [] ∧
        (((edge_face_index faces e).getD []).length = 1 ∨
          ((edge_face_index faces e).getD []).length = 2)) := by
  constructor
  · intro faces h
    unfold edge_data_code
    rw [if_pos h]
  · exact edge_face_index_spec

/-- Witness for edge_data_settled: the single triangle raises
RuntimeError; in the pinwheel tesselation the first face's edge (1,2)
maps, under the intended construction, to a tuple containing face 0 with
1 or 2 entries. -/
theorem edge_data_settled_witness :
    edge_data_code [(0, 1, 2)] = Except.error PyErr.runtimeError ∧
    (0 ∈ (edge_face_index [(0, 1, 2), (0, 2, 3), (0, 3, 1)] (1, 2)).getD [] ∧
      (((edge_face_index [(0, 1, 2), (0, 2, 3), (0, 3, 1)] (1, 2)).getD []).length = 1 ∨
        ((edge_face_index [(0, 1, 2), (0, 2, 3), (0, 3, 1)] (1, 2)).getD []).length = 2)) :=
  ⟨edge_data_settled.1 [(0, 1, 2)] (by decide),
   edge_data_settled.2 [(0, 1, 2), (0, 2, 3), (0, 3, 1)] (by decide)
     0 (0, 1, 2) (by decide) (1, 2) (by decide)⟩

/-! ## Neighborhood ordering (Tesselation.vertex_face_index, lines
547-558, _order_neighborhood, lines 567-575, and neighborhoods, lines
576-586)

The neighborhoods value depends on vertex_faces, which depends on
vertex_face_index, whose body begins with a dict comprehension that
builds d by iterating the variable _ over labels while its key
expression is the name k.  The comprehension binds only _, so evaluating
the key expression reads an unbound name and raises NameError as soon as
labels is nonempty (vertex_edge_index at line 534 carries the same
slip).  neighborhoods therefore raises NameError for every tesselation
with at least one vertex; this is embedded as neighborhoods_code.  The
definitions below it embed the intended computation, with the
comprehension read as iterating k over labels: for a vertex u, each
incident face (one occurrence per corner equal to u, in face order)
contributes the directed edge of its other two corners: (f0,f1) if
f2==u, else (f1,f2) if f0==u, else (f2,f0).  _order_neighborhood starts
from the endpoint of the first edge and, len(edges) times, looks up
res[i] and appends the endpoint of the first edge starting there
(appending nothing when no edge matches; a later res[i] access out of
range raises IndexError, modelled as none). -/

/-- dirEdgeAt u f is the directed edge a face f contributes to the
neighborhood edges of the vertex u. -/
def dirEdgeAt (u : Nat) (f : Face) : Nat × Nat :=
  if f.2.2 = u then (f.1, f.2.1)
  else if f.1 = u then (f.2.1, f.2.2)
  else (f.2.2, f.1)

/-- cornerOcc u f lists the face f once per corner equal to u, in corner
order (vertex_face_index appends the face index once per corner). -/
def cornerOcc (u : Nat) (f : Face) : List Face :=
  (if f.1 = u then [f] else []) ++ (if f.2.1 = u then [f] else [])
    ++ (if f.2.2 = u then [f] else [])

/-- vertexFaces faces u is the incident-face list of the vertex u in face
order: the intended tess.vertex_faces at u, with indices replaced by the
faces themselves (the as-written vertex_face_index raises NameError; see
neighborhoods_code). -/
def vertexFaces (faces : List Face) (u : Nat) : List Face :=
  (faces.map (cornerOcc u)).flatten

/-- nedgesOf faces u is the directed neighborhood edge list of u handed to
_order_neighborhood by the intended neighborhoods value. -/
def nedgesOf (faces : List Face) (u : Nat) : List (Nat × Nat) :=
  (vertexFaces faces u).map (dirEdgeAt u)

/-- vertexFaceIndexScopeNames lists the names bound in the scope of the
vertex_face_index computation: its dependency parameters labels and
faces, the comprehension variable of the dict comprehension, the loop
variables of the face loop, and the module-level imports and class names
of mesh.py.  The name k read by the comprehension's key expression is
not among them. -/
def vertexFaceIndexScopeNames : List String :=
  ["labels", "faces", "d", "_", "i", "u", "v", "w",
   "np", "npml", "sp", "space", "sps", "spopt", "pyr", "sys", "six", "pimms",
   "colls", "reduce", "triangle_area", "triangle_address", "alignment_matrix_3D",
   "cartesian_to_barycentric_3D", "cartesian_to_barycentric_2D",
   "barycentric_to_cartesian", "point_in_triangle",
   "VertexSet", "TesselationIndex", "Tesselation", "Mesh", "Topology"]

/-- vertex_face_index_code embeds the outcome of evaluating
tess.vertex_face_index as written: the dict comprehension building d
iterates _ over labels and evaluates its key expression, the unbound
name k, once per label, so the computation raises NameError whenever the
label list is nonempty (and yields an empty map otherwise, the key
expression never being evaluated). -/
def vertex_face_index_code (faces : List Face) : Except PyErr Unit :=
  if tessLabels faces = [] then Except.ok ()
  else if "k" ∈ vertexFaceIndexScopeNames then Except.ok ()
  else Except.error PyErr.nameError

/-- findNext edges v is the endpoint of the first edge starting at v (the
inner for/break loop of _order_neighborhood). -/
def findNext (edges : List (Nat × Nat)) (v : Nat) : Option Nat :=
  (edges.find? (fun e => e.1 = v)).map (fun e => e.2)

/-- onbGo edges k i res runs k remaining iterations of the
_order_neighborhood loop with the next index i and the accumulated ring
res; a res[i] out of range is the IndexError case, modelled as none. -/
def onbGo (edges : List (Nat × Nat)) : Nat → Nat → List Nat → Option (List Nat)
  | 0, _, res => some res
  | k+1, i, res =>
    match res.get? i with
    | none => none
    | some cur =>
      match findNext edges cur with
      | some nxt => onbGo edges k (i+1) (res ++ [nxt])
      | none => onbGo edges k (i+1) res

/-- order_neighborhood embeds Tesselation._order_neighborhood; the empty
edge list is the IndexError of edges[0], modelled as none. -/
def order_neighborhood (edges : List (Nat × Nat)) : Option (List Nat) :=
  match edges with
  | [] => none
  | e :: _ => onbGo edges edges.length 0 [e.2]

/-- neighborhoodsEntry faces u is the entry of the intended
tess.neighborhoods for the vertex labelled u (what the value computes
once its vertex_face_index dependency is read with the intended
comprehension; as written that dependency raises, embedded as
neighborhoods_code). -/
def neighborhoodsEntry (faces : List Face) (u : Nat) : Option (List Nat) :=
  order_neighborhood (nedgesOf faces u)

/-- neighborhoods_code embeds the outcome of reading tess.neighborhoods as
written: its vertex_faces dependency evaluates vertex_face_index, which
raises NameError for every nonempty label set; only when that
dependency computes does the neighborhoods value itself get built. -/
def neighborhoods_code (faces : List Face) (u : Nat) :
    Except PyErr (Option (List Nat)) :=
  match vertex_face_index_code faces with
  | Except.error e => Except.error e
  | Except.ok _ => Except.ok (neighborhoodsEntry faces u)

/-- walkN edges j is the vertex reached after j successor steps of the
first-matching-edge walk, starting at the endpoint of the first edge
(the value res[j] takes when every step succeeds). -/
def walkN (edges : List (Nat × Nat)) : Nat → Option Nat
  | 0 =>
    match edges with
    | [] => none
    | e :: _ => some e.2
  | j+1 =>
    match walkN edges j with
    | some v => findNext edges v
    | none => none

/-- onbGo_spec: when every remaining step of the walk succeeds, the loop
extends the accumulated ring by one walk value per iteration. -/
theorem onbGo_spec (edges : List (Nat × Nat)) (k : Nat) :
    ∀ (i : Nat) (res : List Nat),
    res.length = i + 1 →
    (∀ j, j ≤ i → res.get? j = walkN edges j) →
    (∀ t, i ≤ t → t < i + k → (walkN edges (t+1)).isSome = true) →
    ∃ r, onbGo edges k i res = some r ∧ r.length = i + k + 1 ∧
      (∀ j, j ≤ i + k → r.get? j = walkN edges j) := by
  induction k with
  | zero =>
    intro i res hlen hget _
    exact ⟨res, rfl, by omega, fun j hj => hget j (by omega)⟩
  | succ k ih =>
    intro i res hlen hget hsome
    have hcur : res.get? i = walkN edges i := hget i le_rfl
    have hlt : i < res.length := by omega
    have hcurv : res.get? i = some (res.get ⟨i, hlt⟩) := List.get?_eq_get hlt
    set cur := res.get ⟨i, hlt⟩ with hcurdef
    have hwalk : walkN edges i = some cur := hcur ▸ hcurv
    have hnext : (walkN edges (i+1)).isSome = true :=
      hsome i le_rfl (by omega)
    have hnextval : walkN edges (i+1) = findNext edges cur := by
      show (match walkN edges i with
        | some v => findNext edges v
        | none => none) = findNext edges cur
      rw [hwalk]
    rcases Option.isSome_iff_exists.mp hnext with ⟨nxt, hnxt⟩
    have hfind : findNext edges cur = some nxt := by rw [← hnextval]; exact hnxt
    have hrun : onbGo edges (k+1) i res = onbGo edges k (i+1) (res ++ [nxt]) := by
      show (match res.get? i with
        | none => none
        | some cur =>
          match findNext edges cur with
          | some nxt => onbGo edges k (i+1) (res ++ [nxt])
          | none => onbGo edges k (i+1) res) = _
      rw [hcurv]
      show (match findNext edges cur with
        | some nxt => onbGo edges k (i+1) (res ++ [nxt])
        | none => onbGo edges k (i+1) res) = _
      rw [hfind]
    rw [hrun]
    have hlen2 : (res ++ [nxt]).length = (i+1) + 1 := by
      simp [hlen]
    have hget2 : ∀ j, j ≤ i + 1 → (res ++ [nxt]).get? j = walkN edges j := by
      intro j hj
      rcases Nat.lt_or_ge j (i+1) with hlt | hge
      · rw [List.get?_eq_getElem?, List.getElem?_append_left (by omega),
          ← List.get?_eq_getElem?]
        exact hget j (by omega)
      · have hj2 : j = i + 1 := by omega
        subst hj2
        rw [List.get?_eq_getElem?, List.getElem?_append_right (by omega)]
        simp only [hlen]
        rw [show i + 1 - (i + 1) = 0 from by omega]
        rw [hnxt]
        rfl
    have hsome2 : ∀ t, i + 1 ≤ t → t < (i+1) + k → (walkN edges (t+1)).isSome = true :=
      fun t ht1 ht2 => hsome t (by omega) (by omega)
    rcases ih (i+1) (res ++ [nxt]) hlen2 hget2 hsome2 with ⟨r, hr, hrl, hrg⟩
    exact ⟨r, hr, by omega, fun j hj => hrg j (by omega)⟩

/-- neighborhoods_ring_closure: if the directed neighborhood edges of a
vertex form a closed walk of length d (every step of the
first-matching-edge walk is defined and the d-th step returns to the
start), the intended neighborhoods entry of that vertex is a tuple of
d+1 labels whose last element repeats the first, so its length exceeds
the ring length by one. -/
theorem neighborhoods_ring_closure (faces : List Face) (u : Nat)
    (hne : nedgesOf faces u ≠ [])
    (hsome : ∀ j, j < (nedgesOf faces u).length →
      (walkN (nedgesOf faces u) (j+1)).isSome = true)
    (hcycle : walkN (nedgesOf faces u) ((nedgesOf faces u).length)
      = walkN (nedgesOf faces u) 0) :
    (neighborhoodsEntry faces u).isSome = true ∧
    ((neighborhoodsEntry faces u).getD []).length = (nedgesOf faces u).length + 1 ∧
    ((neighborhoodsEntry faces u).getD []).get? ((nedgesOf faces u).length)
      = ((neighborhoodsEntry faces u).getD []).get? 0 := by
  rcases List.exists_cons_of_ne_nil hne with ⟨e0, rest, hsplit⟩
  have hw0 : walkN (nedgesOf faces u) 0 = some e0.2 := by
    show (match nedgesOf faces u with
      | [] => none
      | e :: _ => some e.2) = some e0.2
    rw [hsplit]
  have hstart : ∀ j, j ≤ 0 → ([e0.2] : List Nat).get? j = walkN (nedgesOf faces u) j := by
    intro j hj
    interval_cases j
    rw [hw0]
    rfl
  rcases onbGo_spec (nedgesOf faces u) ((nedgesOf faces u).length) 0 [e0.2]
      rfl hstart (fun t _ ht2 => hsome t (by omega)) with ⟨r, hr, hrl, hrg⟩
  have hentry : neighborhoodsEntry faces u = some r := by
    unfold neighborhoodsEntry order_neighborhood
    rw [hsplit] at hr ⊢
    exact hr
  rw [hentry]
  refine ⟨rfl, by simpa using hrl, ?_⟩
  simp only [Option.getD_some]
  rw [hrg ((nedgesOf faces u).length) (by omega), hrg 0 (by omega), hcycle]

/-- C10: neighborhoods as written raises NameError for every tesselation
with at least one vertex (the vertex_face_index dict comprehension reads
the unbound name k); under the intended comprehension, a vertex whose
incident directed edges form a closed walk of length d receives a
neighborhoods entry of d+1 labels whose last element repeats the first,
one more than the ring length. -/
theorem neighborhoods_settled :
    (∀ (faces : List Face) (u : Nat), tessLabels faces ≠ [] →
      neighborhoods_code faces u = Except.error PyErr.nameError) ∧
    (∀ (faces : List Face) (u : Nat),
      nedgesOf faces u ≠ [] →
      (∀ j, j < (nedgesOf faces u).length →
        (walkN (nedgesOf faces u) (j+1)).isSome = true) →
      walkN (nedgesOf faces u) ((nedgesOf faces u).length)
        = walkN (nedgesOf faces u) 0 →
      (neighborhoodsEntry faces u).isSome = true ∧
      ((neighborhoodsEntry faces u).getD []).length = (nedgesOf faces u).length + 1 ∧
      ((neighborhoodsEntry faces u).getD []).get? ((nedgesOf faces u).length)
        = ((neighborhoodsEntry faces u).getD []).get? 0) := by
  constructor
  · intro faces u h
    unfold neighborhoods_code vertex_face_index_code
    rw [if_neg h, if_neg (by decide)]
  · exact neighborhoods_ring_closure

/-- Witness for neighborhoods_settled: the pinwheel tesselation raises
NameError as written; under the intended comprehension, vertex 0 has the
closed ring (1,2),(2,3),(3,1) and its neighborhood tuple has 4 = 3 + 1
entries with the first repeated last. -/
theorem neighborhoods_settled_witness :
    neighborhoods_code [(0, 1, 2), (0, 2, 3), (0, 3, 1)] 0
      = Except.error PyErr.nameError ∧
    ((neighborhoodsEntry [(0, 1, 2), (0, 2, 3), (0, 3, 1)] 0).isSome = true ∧
      ((neighborhoodsEntry [(0, 1, 2), (0, 2, 3), (0, 3, 1)] 0).getD []).length
        = (nedgesOf [(0, 1, 2), (0, 2, 3), (0, 3, 1)] 0).length + 1 ∧
      ((neighborhoodsEntry [(0, 1, 2), (0, 2, 3), (0, 3, 1)] 0).getD []).get?
          ((nedgesOf [(0, 1, 2), (0, 2, 3), (0, 3, 1)] 0).length)
        = ((neighborhoodsEntry [(0, 1, 2), (0, 2, 3), (0, 3, 1)] 0).getD []).get? 0) :=
  ⟨neighborhoods_settled.1 [(0, 1, 2), (0, 2, 3), (0, 3, 1)] 0 (by decide),
   neighborhoods_settled.2 [(0, 1, 2), (0, 2, 3), (0, 3, 1)] 0
     (by decide) (by decide) (by decide)⟩

/-! ## Nearest-vertex query (Mesh.nearest_vertex, lines 985-995)

nearest_vertex sends the query point to self.vertex_hash.query(x, k=1),
the 1-nearest-neighbor query of the scipy cKDTree built over the mesh
coordinate columns.  The k-d tree is an external collaborator (scipy),
not code of this repository. -/

/-- sqDist p q is the squared Euclidean distance between two coordinate
lists. -/
def sqDist (p q : List ℚ) : ℚ :=
  ((p.zip q).map (fun ab => (ab.1 - ab.2) ^ 2)).sum

/-- argminFrom rest bestv cur best scans the remaining distances,
tracking the best (strictly smaller) value and its index; cur is the
index of the head of rest. -/
def argminFrom : List ℚ → ℚ → Nat → Nat → Nat
  | [], _, _, best => best
  | v :: rest, bestv, cur, best =>
    if v < bestv then argminFrom rest v (cur+1) cur
    else argminFrom rest bestv (cur+1) best

/-- argminList l is the first index of a minimal element of l (0 for the
empty list). -/
def argminList : List ℚ → Nat
  | [] => 0
  | v :: rest => argminFrom rest v 1 0

/-- Modelled from the spec: the generic spatial nearest-neighbor index
(section 6; scipy cKDTree, external to the repository) queried with k=1
returns the index of a vertex nearest the query point; it is modelled as
the first index minimizing squared distance.  nearest_vertex then is
Mesh.nearest_vertex on a single query point. -/
def nearest_vertex (coords : List (List ℚ)) (x : List ℚ) : Nat :=
  argminList (coords.map (fun c => sqDist c x))

/-- argminFrom_of_no_better: when nothing beats the current best value,
the tracked best index is returned. -/
theorem argminFrom_of_no_better (rest : List ℚ) :
    ∀ bestv cur best, (∀ v ∈ rest, ¬ v < bestv) →
    argminFrom rest bestv cur best = best := by
  induction rest with
  | nil => intro _ _ _ _; rfl
  | cons v r ih =>
    intro bestv cur best h
    rw [argminFrom, if_neg (h v (List.mem_cons_self v r))]
    exact ih bestv (cur+1) best (fun w hw => h w (List.mem_cons_of_mem v hw))

/-- argminFrom_split: a strictly positive prefix followed by a zero and a
strictly positive suffix makes the zero's position the argmin. -/
theorem argminFrom_split (A : List ℚ) :
    ∀ (B : List ℚ) (bestv : ℚ) (cur best : Nat), 0 < bestv →
    (∀ v ∈ A, 0 < v) → (∀ v ∈ B, 0 < v) →
    argminFrom (A ++ 0 :: B) bestv cur best = cur + A.length := by
  induction A with
  | nil =>
    intro B bestv cur best hb _ hB
    rw [List.nil_append, argminFrom, if_pos hb]
    rw [argminFrom_of_no_better B 0 (cur+1) cur
      (fun v hv => not_lt.mpr (le_of_lt (hB v hv)))]
    simp
  | cons a A2 ih =>
    intro B bestv cur best hb hA hB
    rw [List.cons_append, argminFrom]
    by_cases hcmp : a < bestv
    · rw [if_pos hcmp]
      rw [ih B a (cur+1) cur (hA a (List.mem_cons_self a A2))
        (fun v hv => hA v (List.mem_cons_of_mem a hv)) hB]
      simp [List.length_cons]
      omega
    · rw [if_neg hcmp]
      rw [ih B bestv (cur+1) best hb
        (fun v hv => hA v (List.mem_cons_of_mem a hv)) hB]
      simp [List.length_cons]
      omega

/-- argminList_split: the first index of the distance 0 among otherwise
strictly positive distances is the argmin. -/
theorem argminList_split (A B : List ℚ)
    (hA : ∀ v ∈ A, 0 < v) (hB : ∀ v ∈ B, 0 < v) :
    argminList (A ++ 0 :: B) = A.length := by
  cases A with
  | nil =>
    rw [List.nil_append, argminList]
    exact argminFrom_of_no_better B 0 1 0
      (fun v hv => not_lt.mpr (le_of_lt (hB v hv)))
  | cons a A2 =>
    rw [List.cons_append, argminList]
    rw [argminFrom_split A2 B a 1 0 (hA a (List.mem_cons_self a A2))
      (fun v hv => hA v (List.mem_cons_of_mem a hv)) hB]
    simp [List.length_cons]
    omega

/-- sqDist_self: the squared distance from a point to itself is 0. -/
theorem sqDist_self (p : List ℚ) : sqDist p p = 0 := by
  induction p with
  | nil => rfl
  | cons a r ih =>
    unfold sqDist at ih ⊢
    rw [List.zip_cons_cons, List.map_cons, List.sum_cons, ih]
    ring

/-- sqDist_nonneg: squared distances are nonnegative. -/
theorem sqDist_nonneg (p q : List ℚ) : 0 ≤ sqDist p q := by
  apply List.sum_nonneg
  intro x hx
  rcases List.mem_map.mp hx with ⟨ab, _, rfl⟩
  positivity

/-- sqDist_eq_zero: the squared distance of two same-length coordinate
lists vanishes only when they are equal. -/
theorem sqDist_eq_zero (p : List ℚ) :
    ∀ q : List ℚ, p.length = q.length → sqDist p q = 0 → p = q := by
  induction p with
  | nil =>
    intro q hl _
    cases q with
    | nil => rfl
    | cons b r => simp at hl
  | cons a r ih =>
    intro q hl hz
    cases q with
    | nil => simp at hl
    | cons b s =>
      unfold sqDist at hz
      rw [List.zip_cons_cons, List.map_cons, List.sum_cons] at hz
      have hz2 : (a - b) ^ 2 + sqDist r s = 0 := hz
      have h1 : (0 : ℚ) ≤ (a - b) ^ 2 := by positivity
      have h2 : 0 ≤ sqDist r s := sqDist_nonneg r s
      have hz1 : (a - b) ^ 2 = 0 ∧ sqDist r s = 0 :=
        ⟨by linarith, by linarith⟩
      have hab : a = b := by nlinarith [hz1.1]
      have hrs : r = s := ih s (by simpa using hl) hz1.2
      rw [hab, hrs]

/-- sqDist_pos: distinct same-length coordinate lists are at strictly
positive squared distance. -/
theorem sqDist_pos (p q : List ℚ) (hl : p.length = q.length) (hne : p ≠ q) :
    0 < sqDist p q :=
  lt_of_le_of_ne (sqDist_nonneg p q)
    (fun h => hne (sqDist_eq_zero p q hl h.symm))

/-- C8: on a mesh whose vertex coordinate columns are pairwise distinct
(and of equal dimension), nearest_vertex applied to the coordinates of
vertex i returns i itself. -/
theorem nearest_vertex_self (coords : List (List ℚ)) (i : Nat)
    (hi : i < coords.length)
    (hdim : ∀ c ∈ coords, c.length = (coords.get ⟨i, hi⟩).length)
    (hdist : ∀ j, (hj : j < coords.length) → j ≠ i →
      coords.get ⟨j, hj⟩ ≠ coords.get ⟨i, hi⟩) :
    nearest_vertex coords (coords.get ⟨i, hi⟩) = i := by
  set p := coords.get ⟨i, hi⟩ with hp
  have hsplit : coords = coords.take i ++ p :: coords.drop (i+1) := by
    conv_lhs => rw [← List.take_append_drop i coords]
    rw [← List.cons_getElem_drop_succ (h := hi)]
    rfl
  unfold nearest_vertex
  conv_lhs => rw [hsplit]
  rw [List.map_append, List.map_cons, sqDist_self]
  have hA : ∀ v ∈ (coords.take i).map (fun c => sqDist c p), 0 < v := by
    intro v hv
    rcases List.mem_map.mp hv with ⟨c, hc, rfl⟩
    rcases List.mem_iff_getElem.mp hc with ⟨j, hj, hcj⟩
    have hjlen : j < coords.length := by
      have := hj
      simp only [List.length_take] at this
      omega
    have hji : j < i := by
      have := hj
      simp only [List.length_take] at this
      omega
    have hcj2 : coords.get ⟨j, hjlen⟩ = c := by
      rw [← hcj]
      rw [List.get_eq_getElem]
      exact (List.getElem_take coords).symm
    have hcne : c ≠ p :=
      hcj2 ▸ hdist j hjlen (by omega)
    exact sqDist_pos c p (hdim c (List.take_subset i coords hc)) hcne
  have hB : ∀ v ∈ (coords.drop (i+1)).map (fun c => sqDist c p), 0 < v := by
    intro v hv
    rcases List.mem_map.mp hv with ⟨c, hc, rfl⟩
    rcases List.mem_iff_getElem.mp hc with ⟨j, hj, hcj⟩
    have hjlen : i + 1 + j < coords.length := by
      have := hj
      simp only [List.length_drop] at this
      omega
    have hcj2 : coords.get ⟨i + 1 + j, hjlen⟩ = c := by
      rw [← hcj]
      rw [List.get_eq_getElem]
      exact (List.getElem_drop coords).symm
    have hcne : c ≠ p :=
      hcj2 ▸ hdist (i + 1 + j) hjlen (by omega)
    exact sqDist_pos c p (hdim c (List.drop_subset (i+1) coords hc)) hcne
  rw [argminList_split _ _ hA hB]
  simp only [List.length_map, List.length_take]
  omega

/-- Witness for nearest_vertex_self: the 3-vertex 2D mesh with coordinates
(0,0), (1,0), (0,1); querying the coordinates of vertex 1 returns 1. -/
theorem nearest_vertex_self_witness :
    1 < ([[0, 0], [1, 0], [0, 1]] : List (List ℚ)).length ∧
    nearest_vertex [[0, 0], [1, 0], [0, 1]]
      (([[0, 0], [1, 0], [0, 1]] : List (List ℚ)).get ⟨1, by norm_num⟩) = 1 :=
  ⟨by norm_num,
   nearest_vertex_self [[0, 0], [1, 0], [0, 1]] 1 (by norm_num)
     (by intro c hc; fin_cases hc <;> rfl)
     (by
       intro j hj hne
       have hj3 : j < 3 := by simpa using hj
       interval_cases j
       · intro h
         have := congrArg (fun l => l.getD 0 0) h
         norm_num at this
       · exact absurd rfl hne
       · intro h
         have := congrArg (fun l => l.getD 0 0) h
         norm_num at this)⟩

/-! ## Barycentric addressing (Mesh.address, lines 1313-1336, and
Mesh.unaddress, lines 1338-1357)

address locates the container face of a point and converts the point to
barycentric coordinates in that face's corner matrix; unaddress rebuilds
the point as the barycentric-weighted sum of the corner coordinates of
the stored face id.  As written, the scalar address never gets that far:
its first statement calls self.container(data), whose scalar path raises
TypeError at the first candidate containment test (or AttributeError
from the facee_hash fallback); this is embedded as address_code, built
on container_scalar_code above.  The definitions container_intended and
address_intended embed the same path with those two container slips
removed, to state the round trip the code documents.  The conversion
helpers cartesian_to_barycentric_2D and barycentric_to_cartesian live in
neuropythy/geometry/util.py, which is not under src/, so they are
modelled from the specification (section 4.4); the 2D embedding is used.
Labels are used directly as coordinate column indices, exactly as the
source does (self.coordinates[:,self.tess.faces[:,face_id]]). -/

/-- Pt2 is a 2D point with exact rational coordinates. -/
abbrev Pt2 := ℚ × ℚ

/-- Tri2 is a triangle of corner coordinates (a, b, c). -/
abbrev Tri2 := Pt2 × Pt2 × Pt2

/-- triDet t is the determinant of the barycentric system of the triangle
t = (a, b, c): (ax-cx)(by-cy) - (bx-cx)(ay-cy), twice its signed area. -/
def triDet (t : Tri2) : ℚ :=
  (t.1.1 - t.2.2.1) * (t.2.1.2 - t.2.2.2) - (t.2.1.1 - t.2.2.1) * (t.1.2 - t.2.2.2)

/-- Modelled from the spec: cartesian_to_barycentric_2D
(neuropythy/geometry/util.py, absent from src/) converts a Cartesian
point to barycentric coordinates within a face's 3 corners; the standard
2D formula solves the 2x2 system by Cramer's rule with the third
coordinate as the complement.  (Rational division by a zero determinant
yields 0 here; the round-trip theorem only concerns nondegenerate
faces.) -/
def cartesian_to_barycentric_2D (t : Tri2) (p : Pt2) : ℚ × ℚ × ℚ :=
  let d := triDet t
  let l1 := ((p.1 - t.2.2.1) * (t.2.1.2 - t.2.2.2)
    - (t.2.1.1 - t.2.2.1) * (p.2 - t.2.2.2)) / d
  let l2 := ((t.1.1 - t.2.2.1) * (p.2 - t.2.2.2)
    - (p.1 - t.2.2.1) * (t.1.2 - t.2.2.2)) / d
  (l1, l2, 1 - l1 - l2)

/-- Modelled from the spec: barycentric_to_cartesian
(neuropythy/geometry/util.py, absent from src/) reconstructs Cartesian
coordinates as the barycentric-weighted sum of the face's corner
coordinates. -/
def barycentric_to_cartesian (t : Tri2) (l : ℚ × ℚ × ℚ) : Pt2 :=
  (l.1 * t.1.1 + l.2.1 * t.2.1.1 + l.2.2 * t.2.2.1,
   l.1 * t.1.2 + l.2.1 * t.2.1.2 + l.2.2 * t.2.2.2)

/-- Modelled from the spec: point_in_triangle
(neuropythy/geometry/util.py, absent from src/) is the robust
planar/barycentric containment test: the triangle is nondegenerate and
all barycentric coordinates are nonnegative. -/
def point_in_triangle (t : Tri2) (p : Pt2) : Bool :=
  decide (triDet t ≠ 0) &&
    decide (0 ≤ (cartesian_to_barycentric_2D t p).1) &&
    decide (0 ≤ (cartesian_to_barycentric_2D t p).2.1) &&
    decide (0 ≤ (cartesian_to_barycentric_2D t p).2.2)

/-- strictlyInside t p states that p is strictly inside the triangle t:
the triangle is nondegenerate and all barycentric coordinates of p are
strictly positive. -/
def strictlyInside (t : Tri2) (p : Pt2) : Prop :=
  triDet t ≠ 0 ∧
    0 < (cartesian_to_barycentric_2D t p).1 ∧
    0 < (cartesian_to_barycentric_2D t p).2.1 ∧
    0 < (cartesian_to_barycentric_2D t p).2.2

/-- Mesh2 is a 2D mesh: coordinate columns and label-triple faces. -/
structure Mesh2 where
  coords : List Pt2
  faces : List Face

/-- cornersOf m fid is the corner coordinate triangle of the face with
index fid (none when the face or a coordinate column is missing). -/
def cornersOf (m : Mesh2) (fid : Nat) : Option Tri2 :=
  match m.faces.get? fid with
  | none => none
  | some f =>
    match m.coords.get? f.1, m.coords.get? f.2.1, m.coords.get? f.2.2 with
    | some a, some b, some c => some (a, b, c)
    | _, _, _ => none

/-- container_intended is the scalar container query with its two slips
removed (the is_point_in_face len() TypeError and the facee_hash
AttributeError, both embedded above in container_scalar_code): the face
whose planar region contains the point, or none, realized per the
section 4.3 contract as the first face containing the point. -/
def container_intended (m : Mesh2) (p : Pt2) : Option Nat :=
  (List.range m.faces.length).find? (fun fid =>
    match cornersOf m fid with
    | some t => point_in_triangle t p
    | none => false)

/-- address_intended embeds the scalar path of Mesh.address with the
container call's slips removed: locate the container face (None when
there is none) and convert the point to barycentric coordinates in that
face's corners. -/
def address_intended (m : Mesh2) (p : Pt2) : Option (Nat × (ℚ × ℚ × ℚ)) :=
  match container_intended m p with
  | none => none
  | some fid =>
    match cornersOf m fid with
    | some t => some (fid, cartesian_to_barycentric_2D t p)
    | none => none

/-- unaddress embeds the scalar path of Mesh.unaddress (which has no
slips): rebuild the point from the stored face id and barycentric
coordinates by the weighted sum of that face's current corners (a None
face id yields the NaN vector, modelled as none). -/
def unaddress (m : Mesh2) (addr : Option (Nat × (ℚ × ℚ × ℚ))) : Option Pt2 :=
  match addr with
  | none => none
  | some fb =>
    match cornersOf m fb.1 with
    | some t => some (barycentric_to_cartesian t fb.2)
    | none => none

/-- bary_roundtrip: on a nondegenerate triangle the barycentric conversion
is inverted exactly by the weighted corner sum. -/
theorem bary_roundtrip (t : Tri2) (p : Pt2) (hd : triDet t ≠ 0) :
    barycentric_to_cartesian t (cartesian_to_barycentric_2D t p) = p := by
  rcases t with ⟨⟨ax, ay⟩, ⟨bx, by2⟩, ⟨cx, cy⟩⟩
  rcases p with ⟨px, py⟩
  unfold triDet at hd
  simp only at hd
  unfold barycentric_to_cartesian cartesian_to_barycentric_2D triDet
  simp only [Prod.mk.injEq]
  constructor <;> field_simp <;> ring

/-- address_unaddress_roundtrip: for a point strictly inside some face of
the mesh, unaddressing the intended address of the point reproduces the
point exactly. -/
theorem address_unaddress_roundtrip (m : Mesh2) (p : Pt2)
    (h : ∃ fid t, cornersOf m fid = some t ∧ strictlyInside t p) :
    unaddress m (address_intended m p) = some p := by
  rcases h with ⟨fid, t, hc, hs⟩
  have hfid : fid < m.faces.length := by
    rcases hgf : m.faces.get? fid with _ | f
    · rw [cornersOf, hgf] at hc
      exact absurd hc (by simp)
    · exact (List.get?_eq_some.mp hgf).1
  have hpred : (match cornersOf m fid with
      | some t => point_in_triangle t p
      | none => false) = true := by
    rw [hc]
    unfold point_in_triangle
    rcases hs with ⟨h0, h1, h2, h3⟩
    simp [h0, le_of_lt h1, le_of_lt h2, le_of_lt h3]
  have hfind : (container_intended m p).isSome = true := by
    unfold container_intended
    rcases hfound : (List.range m.faces.length).find? (fun fid =>
      match cornersOf m fid with
      | some t => point_in_triangle t p
      | none => false) with _ | g
    · exfalso
      have := List.find?_eq_none.mp hfound fid (List.mem_range.mpr hfid)
      exact this hpred
    · rfl
  rcases Option.isSome_iff_exists.mp hfind with ⟨g, hg⟩
  have hg2 : (List.range m.faces.length).find? (fun fid =>
      match cornersOf m fid with
      | some t => point_in_triangle t p
      | none => false) = some g := hg
  have hgpred := List.find?_some hg2
  simp only at hgpred
  rcases hgc : cornersOf m g with _ | tg
  · rw [hgc] at hgpred
    exact absurd hgpred (by simp)
  · rw [hgc] at hgpred
    have hgdet : triDet tg ≠ 0 := by
      unfold point_in_triangle at hgpred
      simp only [Bool.and_eq_true, decide_eq_true_eq] at hgpred
      exact hgpred.1.1.1
    unfold address_intended unaddress
    simp only [hg, hgc]
    rw [bary_roundtrip tg p hgdet]

/-- unitTriMesh is the 2D mesh with the single triangle (0,0),(1,0),(0,1). -/
def unitTriMesh : Mesh2 :=
  { coords := [(0, 0), (1, 0), (0, 1)], faces := [(0, 1, 2)] }

/-- address_code embeds the scalar path of Mesh.address as written: the
first statement calls self.container(data), whose scalar path is
container_scalar_code (near being the k-d tree candidates with the
default k); an exception propagates, a None container yields None, and
the barycentric conversion below runs only if the container call were to
return a face (an out-of-range face id would be an IndexError of the
coordinate lookup). -/
def address_code (m : Mesh2) (p : Pt2) (near : List Nat) (k : Nat) :
    Except PyErr (Option (Nat × (ℚ × ℚ × ℚ))) :=
  match container_scalar_code near k with
  | Except.error e => Except.error e
  | Except.ok none => Except.ok none
  | Except.ok (some fid) =>
    match cornersOf m fid with
    | some t => Except.ok (some (fid, cartesian_to_barycentric_2D t p))
    | none => Except.error PyErr.indexError

/-- C2: the scalar address as written never returns an address — its
container call raises TypeError at the first candidate containment test
for every mesh, point and nonempty candidate list — so
unaddress(address(p)) = p holds on no input of the program; with the two
container slips removed, unaddressing the address of any point strictly
inside some face reproduces the point exactly (the exact rational
statement of the up-to-floating-point-tolerance claim). -/
theorem address_roundtrip_settled :
    (∀ (m : Mesh2) (p : Pt2) (near : List Nat) (k : Nat), near ≠ [] →
      address_code m p near k = Except.error PyErr.typeError) ∧
    (∀ (m : Mesh2) (p : Pt2),
      (∃ fid t, cornersOf m fid = some t ∧ strictlyInside t p) →
      unaddress m (address_intended m p) = some p) := by
  constructor
  · intro m p near k hne
    unfold address_code
    rw [container_typeError near k hne]
  · exact address_unaddress_roundtrip

/-- Witness for address_roundtrip_settled: on the unit-triangle mesh with
the point (1/4, 1/4) strictly inside face 0, the as-written address
raises TypeError given the candidate list (0) from the k-d tree, while
the intended address round-trips the point exactly. -/
theorem address_roundtrip_settled_witness :
    address_code unitTriMesh (1/4, 1/4) [0] 2 = Except.error PyErr.typeError ∧
    unaddress unitTriMesh (address_intended unitTriMesh (1/4, 1/4))
      = some ((1/4 : ℚ), (1/4 : ℚ)) :=
  ⟨address_roundtrip_settled.1 unitTriMesh (1/4, 1/4) [0] 2 (by decide),
   address_roundtrip_settled.2 unitTriMesh (1/4, 1/4)
     ⟨0, ((0, 0), (1, 0), (0, 1)), rfl, by
       unfold strictlyInside cartesian_to_barycentric_2D triDet
       norm_num⟩⟩

/-! ## Batched address (Mesh.address, lines 1327-1336)

In the batched path the corner matrix for each point is selected by

    tx = np.asarray([self.coordinates[:,faces[:,f]].T if f else null
                     for f in face_id])

where null is a NaN-filled matrix and face_id holds the results of
self.container(data) (None for points with no container).  The Python
truth test "if f" is False both for None and for the integer 0, so a
point whose container is face index 0 receives the NaN corner matrix.
The barycentric conversion is modelled over NaN-propagating floats (FQ);
the conversion helper is from util.py, absent from src/, modelled from
the specification as in the exact-rational version above. -/

/-- PtF is a 2D point over modelled floats. -/
abbrev PtF := FQ × FQ

/-- TriF is a corner triangle over modelled floats. -/
abbrev TriF := PtF × PtF × PtF

/-- Modelled from the spec: cartesian_to_barycentric_2D over modelled
floats, the same Cramer formula with NaN propagation. -/
def cartesian_to_barycentric_2DF (t : TriF) (p : PtF) : FQ × FQ × FQ :=
  let d := fsub (fmul (fsub t.1.1 t.2.2.1) (fsub t.2.1.2 t.2.2.2))
    (fmul (fsub t.2.1.1 t.2.2.1) (fsub t.1.2 t.2.2.2))
  let l1 := fdiv (fsub (fmul (fsub p.1 t.2.2.1) (fsub t.2.1.2 t.2.2.2))
    (fmul (fsub t.2.1.1 t.2.2.1) (fsub p.2 t.2.2.2))) d
  let l2 := fdiv (fsub (fmul (fsub t.1.1 t.2.2.1) (fsub p.2 t.2.2.2))
    (fmul (fsub p.1 t.2.2.1) (fsub t.1.2 t.2.2.2))) d
  (l1, l2, fsub (fsub (some 1) l1) l2)

/-- nanTri is the NaN-filled corner matrix null of the batched address. -/
def nanTri : TriF := ((none, none), (none, none), (none, none))

/-- truthy models the Python truth test "if f" on a face-id entry: None
and the integer 0 are both falsy. -/
def truthy : Option Nat → Bool
  | none => false
  | some k => decide (k ≠ 0)

/-- txRowOf corners fid is the corner matrix selected for one batched
address entry: the face's corners when the face id is truthy, the NaN
matrix otherwise. -/
def txRowOf (corners : Nat → TriF) (fid : Option Nat) : TriF :=
  if truthy fid then corners (fid.getD 0) else nanTri

/-- address_batched embeds the batched path of Mesh.address given the
container results fids (the value of self.container(data)) and the
corner coordinates of each face: the returned dictionary holds the
face_id array unchanged and the per-point barycentric coordinates. -/
def address_batched (corners : Nat → TriF) (fids : List (Option Nat))
    (pts : List PtF) : List (Option Nat) × List (FQ × FQ × FQ) :=
  (fids, (fids.zip pts).map
    (fun fp => cartesian_to_barycentric_2DF (txRowOf corners fp.1) fp.2))

/-- bary_nanTri: the barycentric coordinates computed from the NaN corner
matrix are NaN for every query point. -/
theorem bary_nanTri (p : PtF) :
    cartesian_to_barycentric_2DF nanTri p = (none, none, none) := by
  rcases p with ⟨p1, p2⟩
  cases p1 <;> cases p2 <;> rfl

/-- C9: in the batched address, a point whose container search yields face
index 0 receives NaN-filled barycentric coordinates — identical to those
of a point with no container at all — even though its face_id entry in
the returned dictionary is 0, because the truth test "if f" treats the
index 0 like the no-container sentinel None. -/
theorem address_batched_face_zero (corners : Nat → TriF) (fids : List (Option Nat))
    (pts : List PtF) (j0 jn : Nat)
    (h0 : fids.get? j0 = some (some 0)) (hn : fids.get? jn = some none)
    (hl0 : j0 < pts.length) (hln : jn < pts.length) :
    (address_batched corners fids pts).1.get? j0 = some (some 0) ∧
    (address_batched corners fids pts).2.get? j0 = some (none, none, none) ∧
    (address_batched corners fids pts).2.get? jn = some (none, none, none) := by
  have key : ∀ (j : Nat) (v : Option Nat), truthy v = false →
      fids.get? j = some v → j < pts.length →
      (address_batched corners fids pts).2.get? j = some (none, none, none) := by
    intro j v hv hj hjp
    show ((fids.zip pts).map
      (fun fp => cartesian_to_barycentric_2DF (txRowOf corners fp.1) fp.2)).get? j
        = some (none, none, none)
    have hjf : j < fids.length := (List.get?_eq_some.mp hj).1
    have hzip : (fids.zip pts).get? j
        = some (fids.get ⟨j, hjf⟩, pts.get ⟨j, hjp⟩) := by
      rw [List.get?_eq_getElem?, List.getElem?_zip_eq_some]
      constructor <;> rw [← List.get?_eq_getElem?, List.get?_eq_get]
    have hfv : fids.get ⟨j, hjf⟩ = v := by
      have := hj
      rw [List.get?_eq_get hjf] at this
      exact Option.some_injective _ this
    rw [List.get?_eq_getElem?, List.getElem?_map, ← List.get?_eq_getElem?, hzip]
    show some (cartesian_to_barycentric_2DF
      (txRowOf corners (fids.get ⟨j, hjf⟩)) (pts.get ⟨j, hjp⟩))
      = some (none, none, none)
    rw [hfv]
    unfold txRowOf
    rw [hv, if_neg Bool.false_ne_true]
    rw [bary_nanTri]
  exact ⟨h0, key j0 (some 0) rfl h0 hl0, key jn none rfl hn hln⟩

/-- Witness for address_batched_face_zero: a two-point batch over the unit
triangle, the first point contained in face 0 and the second outside the
mesh. -/
theorem address_batched_face_zero_witness :
    ([some 0, none] : List (Option Nat)).get? 0 = some (some 0) ∧
    (address_batched
        (fun _ => ((some 0, some 0), (some 1, some 0), (some 0, some 1)))
        [some 0, none]
        [(some (1/4 : ℚ), some (1/4 : ℚ)), (some 5, some 5)]).2.get? 0
      = some (none, none, none) ∧
    (address_batched
        (fun _ => ((some 0, some 0), (some 1, some 0), (some 0, some 1)))
        [some 0, none]
        [(some (1/4 : ℚ), some (1/4 : ℚ)), (some 5, some 5)]).2.get? 1
      = some (none, none, none) :=
  ⟨rfl,
   (address_batched_face_zero
     (fun _ => ((some 0, some 0), (some 1, some 0), (some 0, some 1)))
     [some 0, none] [(some (1/4 : ℚ), some (1/4 : ℚ)), (some 5, some 5)]
     0 1 rfl rfl (by norm_num) (by norm_num)).2.1,
   (address_batched_face_zero
     (fun _ => ((some 0, some 0), (some 1, some 0), (some 0, some 1)))
     [some 0, none] [(some (1/4 : ℚ), some (1/4 : ℚ)), (some 5, some 5)]
     0 1 rfl rfl (by norm_num) (by norm_num)).2.2⟩
